import Mathlib

/-!
Verification of the qrcode.js QR-code library (src/qrcode.js) against its
natural-language specification.  The JavaScript source is shallowly embedded:
machine integers become `Nat`/`Int` (with explicit wrapping where the source
relies on 32-bit semantics), IEEE doubles become `ℚ`, typed arrays become
lists, and code paths that `throw` return `Except`.
-/

namespace QR

/-- Error type standing for a thrown JS `Error`; the message strings carried by
the source are irrelevant to the verified properties. -/
inductive Err : Type
  | error : Err
  deriving DecidableEq

/-! ### Basic integer helpers (src/qrcode.js lines 23-80) -/

/-- Embedding of `toInt32`, JS `value | 0` applied to an integer: wrap into
the two's-complement 32-bit range. -/
def toInt32 (n : ℤ) : ℤ :=
  (n + 2 ^ 31) % 2 ^ 32 - 2 ^ 31

/-- Truncation toward zero of a rational, as JS ToInt32 truncates a double. -/
def ratTrunc (q : ℚ) : ℤ :=
  if q < 0 then -⌊-q⌋ else ⌊q⌋

/-- Embedding of `toInt32` applied to a JS double (a rational in this model). -/
def toInt32Q (q : ℚ) : ℤ :=
  toInt32 (ratTrunc q)

/-- Embedding of `round`: `toInt32(value + (value < 0 ? -0.5 : 0.5))`. -/
def jsRound (q : ℚ) : ℤ :=
  toInt32Q (q + (if q < 0 then -(1 / 2) else 1 / 2))

/-- Fuel-driven population count; the fuel only bounds the recursion depth and
`hammingWeight` passes enough of it (the value strictly decreases each step). -/
def hammingWeightAux : ℕ → ℕ → ℕ
  | 0, _ => 0
  | fuel + 1, v => if v = 0 then 0 else v % 2 + hammingWeightAux fuel (v / 2)

/-- Embedding of `hammingWeight`: population count of the (nonnegative) value;
the source computes it with the HD figure 5-2 bit tricks on an int32. -/
def hammingWeight (n : ℕ) : ℕ :=
  hammingWeightAux n n

/-- Fuel-driven bit length; the fuel only bounds the recursion depth and
`findMSBSet` passes enough of it (the value strictly decreases each step). -/
def findMSBSetAux : ℕ → ℕ → ℕ
  | 0, _ => 0
  | fuel + 1, v => if v = 0 then 0 else findMSBSetAux fuel (v / 2) + 1

/-- Embedding of `findMSBSet`: position of the most significant set bit,
1-based; 0 when the value is 0 (`32 - Math.clz32(value)`). -/
def findMSBSet (n : ℕ) : ℕ :=
  findMSBSetAux n n

/-- Inner loop of `calculateBCHCode`: repeatedly cancel the leading term of
`value` with `poly` shifted left.  Each iteration strictly decreases `value`
(the leading bit is cleared by the aligned xor), so the fuel passed by
`calculateBCHCode` (`value + 1`) always suffices. -/
def bchLoop (poly msbSetInPoly : ℕ) : ℕ → ℕ → ℕ
  | 0, value => value
  | fuel + 1, value =>
    if msbSetInPoly ≤ findMSBSet value then
      bchLoop poly msbSetInPoly fuel (value ^^^ (poly <<< (findMSBSet value - msbSetInPoly)))
    else
      value

/-- Embedding of `calculateBCHCode(value, poly)`: the BCH remainder of
`value << (findMSBSet(poly) - 1)` under `poly`. -/
def calculateBCHCode (value poly : ℕ) : ℕ :=
  let msbSetInPoly := findMSBSet poly
  let shifted := value <<< (msbSetInPoly - 1)
  bchLoop poly msbSetInPoly (shifted + 1) shifted

/-! ### BitArray (src/qrcode.js lines 2401-2474)

The source stores bits LSB-first inside packed 32-bit words; the observable
content is the sequence of bits indexed from 0, which we model as a
`List Bool` (index 0 is the head). -/

/-- Embedding of `BitArray.append(value, length)`: append the low `length`
bits of `value` most significant first. -/
def appendBits (bits : List Bool) (value length : ℕ) : List Bool :=
  bits ++ (List.range length).map (fun i => value.testBit (length - 1 - i))

/-- Embedding of `BitArray.xor(mask)` for arrays of equal length: pointwise
xor of the bit sequences. -/
def xorBits (bits mask : List Bool) : List Bool :=
  List.zipWith Bool.xor bits mask

/-- Embedding of `BitArray.byteLength`: `Math.ceil(length / 8)`. -/
def byteLength (bits : List Bool) : ℕ :=
  (bits.length + 7) / 8

/-- Value of a bit sequence read most significant bit first (bit at index 0 is
the most significant), as the format-info placement reads it. -/
def bitsToNat (bits : List Bool) : ℕ :=
  bits.foldl (fun acc b => 2 * acc + (if b then 1 else 0)) 0

/-! ### ECLevel and FormatInfo (src/qrcode.js lines 1125-1260) -/

/-- Embedding of the `ECLevel` enum. -/
inductive ECLevel : Type
  | L
  | M
  | Q
  | H
  deriving DecidableEq

instance : Fintype ECLevel :=
  ⟨{ECLevel.L, ECLevel.M, ECLevel.Q, ECLevel.H}, by intro x; cases x <;> decide⟩

/-- Embedding of `ECLevel#bits`, the 2-bit wire value of each level. -/
def ECLevel.bits : ECLevel → ℕ
  | .L => 0x01
  | .M => 0x00
  | .Q => 0x03
  | .H => 0x02

/-- Embedding of `ECLevel#level`, the linear table index of each level. -/
def ECLevel.level : ECLevel → ℕ
  | .L => 0
  | .M => 1
  | .Q => 2
  | .H => 3

/-- Embedding of `fromECLevelBits` (src/qrcode.js lines 1143-1151): inverse of
`ECLevel.bits`, throwing on values outside 0..3. -/
def fromECLevelBits : ℕ → Except Err ECLevel
  | 0 => .ok .M
  | 1 => .ok .L
  | 2 => .ok .H
  | 3 => .ok .Q
  | _ => .error .error

/-- Embedding of the `FormatInfo` parsed form `{mask, level}`. -/
structure FormatInfo : Type where
  mask : ℕ
  level : ECLevel
  deriving DecidableEq

/-- Embedding of the `FormatInfo` constructor: `mask = formatInfo & 0x07`,
`level = fromECLevelBits((formatInfo >> 3) & 0x03)`.  The masked argument is
always in 0..3 so `fromECLevelBits` cannot throw; the fallback arm is dead. -/
def mkFormatInfo (formatInfo : ℕ) : FormatInfo :=
  { mask := formatInfo &&& 0x07
    level := match fromECLevelBits ((formatInfo >>> 3) &&& 0x03) with
      | .ok level => level
      | .error _ => .M }

/-- Embedding of `FORMAT_INFO_DECODE_TABLE` (src/qrcode.js lines 1184-1217):
pairs of (masked 15-bit codeword, 5-bit level-and-mask value). -/
def FORMAT_INFO_DECODE_TABLE : List (ℕ × ℕ) :=
  [(0x5412, 0x00), (0x5125, 0x01), (0x5e7c, 0x02), (0x5b4b, 0x03),
   (0x45f9, 0x04), (0x40ce, 0x05), (0x4f97, 0x06), (0x4aa0, 0x07),
   (0x77c4, 0x08), (0x72f3, 0x09), (0x7daa, 0x0a), (0x789d, 0x0b),
   (0x662f, 0x0c), (0x6318, 0x0d), (0x6c41, 0x0e), (0x6976, 0x0f),
   (0x1689, 0x10), (0x13be, 0x11), (0x1ce7, 0x12), (0x19d0, 0x13),
   (0x0762, 0x14), (0x0255, 0x15), (0x0d0c, 0x16), (0x083b, 0x17),
   (0x355f, 0x18), (0x3068, 0x19), (0x3f31, 0x1a), (0x3a06, 0x1b),
   (0x24b4, 0x1c), (0x2183, 0x1d), (0x2eda, 0x1e), (0x2bed, 0x1f)]

/-- Loop of `decodeFormatInfo` over `FORMAT_INFO_DECODE_TABLE`, carrying the
best Hamming distance and the associated table value; an exact match on either
replica returns immediately. -/
def decodeFormatInfoLoop (formatInfo1 formatInfo2 : ℕ) :
    List (ℕ × ℕ) → ℕ → ℕ → Except Err FormatInfo
  | [], bestDiff, bestFormatInfo =>
    if bestDiff ≤ 3 then .ok (mkFormatInfo bestFormatInfo) else .error .error
  | (maskedFormatInfo, formatInfo) :: rest, bestDiff, bestFormatInfo =>
    if formatInfo1 = maskedFormatInfo ∨ formatInfo2 = maskedFormatInfo then
      .ok (mkFormatInfo formatInfo)
    else
      let bitsDiff := hammingWeight (formatInfo1 ^^^ maskedFormatInfo)
      let best := if bitsDiff < bestDiff then (bitsDiff, formatInfo) else (bestDiff, bestFormatInfo)
      let best :=
        if formatInfo1 ≠ formatInfo2 then
          let bitsDiff := hammingWeight (formatInfo2 ^^^ maskedFormatInfo)
          if bitsDiff < best.1 then (bitsDiff, formatInfo) else best
        else best
      decodeFormatInfoLoop formatInfo1 formatInfo2 rest best.1 best.2

/-- Embedding of `decodeFormatInfo(formatInfo1, formatInfo2)` (src/qrcode.js
lines 1232-1260). -/
def decodeFormatInfo (formatInfo1 formatInfo2 : ℕ) : Except Err FormatInfo :=
  decodeFormatInfoLoop formatInfo1 formatInfo2 FORMAT_INFO_DECODE_TABLE 32 0

/-- Format information BCH polynomial `0x537` (src/qrcode.js line 2480). -/
def FORMAT_INFO_POLY : ℕ := 0x537

/-- Format information mask `0x5412` (src/qrcode.js line 2482). -/
def FORMAT_INFO_MASK : ℕ := 0x5412

/-- Embedding of `makeFormatInfoBits(bits, ecLevel, mask)` (src/qrcode.js
lines 2643-2651) applied to an empty bit array: append the 5-bit
level-and-mask value, append its 10-bit BCH code, and xor the 15 bits with
`FORMAT_INFO_MASK`. -/
def makeFormatInfoBits (ecLevel : ECLevel) (mask : ℕ) : List Bool :=
  let formatInfo := (ecLevel.bits <<< 3) ||| mask
  let bits := appendBits [] formatInfo 5
  let bits := appendBits bits (calculateBCHCode formatInfo FORMAT_INFO_POLY) 10
  xorBits bits (appendBits [] FORMAT_INFO_MASK 15)

instance instDecEqExcept {ε α : Type} [DecidableEq ε] [DecidableEq α] :
    DecidableEq (Except ε α) := fun a b =>
  match a, b with
  | .ok x, .ok y => decidable_of_iff (x = y) (by simp)
  | .error x, .error y => decidable_of_iff (x = y) (by simp)
  | .ok _, .error _ => isFalse (by simp)
  | .error _, .ok _ => isFalse (by simp)

/-! ### BitSource (src/qrcode.js lines 530-585)

An immutable byte slice plus a cursor `(byteOffset, bitOffset)`; bits are read
most significant first within each byte.  JS reads past the end of the
`Uint8Array` yield `undefined`, which the bitwise masks turn into 0; `getD`
with default 0 reproduces that. -/

/-- Embedding of the `BitSource`. -/
structure BitSource : Type where
  bytes : List ℕ
  bitOffset : ℕ
  byteOffset : ℕ
  deriving DecidableEq

/-- First phase of `BitSource.read`: read the remainder of the current byte
when the cursor is not byte aligned.  Returns
(result, remaining length, bitOffset, byteOffset). -/
def readFirstPartial (bytes : List ℕ) (bitOffset byteOffset length : ℕ) :
    ℕ × ℕ × ℕ × ℕ :=
  if 0 < bitOffset then
    let bitsLeft := 8 - bitOffset
    let toRead := min length bitsLeft
    let bitsToNotRead := bitsLeft - toRead
    let mask := (0xff >>> (8 - toRead)) <<< bitsToNotRead
    let result := ((bytes.getD byteOffset 0) &&& mask) >>> bitsToNotRead
    if bitOffset + toRead = 8 then (result, length - toRead, 0, byteOffset + 1)
    else (result, length - toRead, bitOffset + toRead, byteOffset)
  else (0, length, bitOffset, byteOffset)

/-- Second phase of `BitSource.read`: the whole-byte while loop, which runs
`length / 8` times.  Returns (result, byteOffset). -/
def readWholeBytes (bytes : List ℕ) (count result byteOffset : ℕ) : ℕ × ℕ :=
  (List.range count).foldl
    (fun acc _ => ((acc.1 <<< 8) ||| ((bytes.getD acc.2 0) &&& 0xff), acc.2 + 1))
    (result, byteOffset)

/-- Third phase of `BitSource.read`: the final partial byte of `length % 8`
bits.  Returns (result, bitOffset, byteOffset). -/
def readLastPartial (bytes : List ℕ) (rest result bitOffset byteOffset : ℕ) :
    ℕ × ℕ × ℕ :=
  if 0 < rest then
    let bitsToNotRead := 8 - rest
    let mask := (0xff >>> bitsToNotRead) <<< bitsToNotRead
    ((result <<< rest) ||| (((bytes.getD byteOffset 0) &&& mask) >>> bitsToNotRead),
      bitOffset + rest, byteOffset)
  else (result, bitOffset, byteOffset)

/-- Embedding of `BitSource.read(length)`: returns the value read and the
advanced source. -/
def BitSource.read (src : BitSource) (length : ℕ) : ℕ × BitSource :=
  let s1 := readFirstPartial src.bytes src.bitOffset src.byteOffset length
  let s2 := readWholeBytes src.bytes (s1.2.1 / 8) s1.1 s1.2.2.2
  let s3 := readLastPartial src.bytes (s1.2.1 % 8) s2.1 s1.2.2.1 s2.2
  (s3.1, ⟨src.bytes, s3.2.1, s3.2.2⟩)

/-- Embedding of `parseECIValue(source)` (src/qrcode.js lines 705-723). -/
def parseECIValue (source : BitSource) : Except Err (ℕ × BitSource) :=
  let r := source.read 8
  let firstByte := r.1
  if firstByte &&& 0x80 = 0 then
    Except.ok (firstByte &&& 0x7f, r.2)
  else if firstByte &&& 0xc0 = 0x80 then
    let r2 := r.2.read 8
    Except.ok (((firstByte &&& 0x3f) <<< 8) ||| r2.1, r2.2)
  else if firstByte &&& 0xe0 = 0xc0 then
    let r2 := r.2.read 16
    Except.ok (((firstByte &&& 0x1f) <<< 16) ||| r2.1, r2.2)
  else
    Except.error Err.error

/-! ### Built-in text encoding (src/qrcode.js lines 635-655)

Strings are modelled as lists of Unicode code points; `charCodeAt(0)` of a
code point above 0xFFFF yields its UTF-16 high surrogate. -/

/-- Value of `character.charCodeAt(0)` for a code point: the code point itself
in the BMP, otherwise the high surrogate of its UTF-16 encoding. -/
def charCodeAt0 (codePoint : ℕ) : ℕ :=
  if codePoint < 0x10000 then codePoint
  else 0xD800 + ((codePoint - 0x10000) >>> 10)

/-- Embedding of `getCharCodes(content, maxCode)`: codes above `maxCode` are
replaced by 63 (the byte of the question mark). -/
def getCharCodes (content : List ℕ) (maxCode : ℕ) : List ℕ :=
  content.map (fun character =>
    let code := charCodeAt0 character
    if maxCode < code then 63 else code)

/-- Embedding of the `Charset` values `encode$1` distinguishes; `other` stands
for every charset outside its three supported cases. -/
inductive Charset : Type
  | ASCII
  | ISO_8859_1
  | UTF_8
  | other
  deriving DecidableEq

/-- UTF-8 bytes of one code point, the behaviour of the JS `TextEncoder` on a
well-formed string. -/
def utf8EncodeChar (codePoint : ℕ) : List ℕ :=
  if codePoint < 0x80 then [codePoint]
  else if codePoint < 0x800 then
    [0xc0 ||| (codePoint >>> 6), 0x80 ||| (codePoint &&& 0x3f)]
  else if codePoint < 0x10000 then
    [0xe0 ||| (codePoint >>> 12), 0x80 ||| ((codePoint >>> 6) &&& 0x3f),
      0x80 ||| (codePoint &&& 0x3f)]
  else
    [0xf0 ||| (codePoint >>> 18), 0x80 ||| ((codePoint >>> 12) &&& 0x3f),
      0x80 ||| ((codePoint >>> 6) &&& 0x3f), 0x80 ||| (codePoint &&& 0x3f)]

/-- Embedding of `encode$1(content, charset)`: the built-in text encoder.  The
source throws on any charset other than ASCII, UTF-8 and ISO-8859-1. -/
def builtinEncode (content : List ℕ) (charset : Charset) : Except Err (List ℕ) :=
  match charset with
  | .ASCII => Except.ok (getCharCodes content 0x7f)
  | .ISO_8859_1 => Except.ok (getCharCodes content 0xff)
  | .UTF_8 => Except.ok (content.flatMap utf8EncodeChar)
  | .other => Except.error Err.error

/-! ### Numeric segment encoding (src/qrcode.js lines 4981-5031) -/

/-- The ten numeric-mode characters. -/
def NUMERIC_CHARACTERS : List Char :=
  ['0', '1', '2', '3', '4', '5', '6', '7', '8', '9']

/-- Embedding of `getNumericCode(character)`: the index of the character in
`NUMERIC_CHARACTERS`, throwing on any other character. -/
def getNumericCode (character : Char) : Except Err ℕ :=
  match NUMERIC_CHARACTERS.findIdx? (fun ch => ch == character) with
  | some code => Except.ok code
  | none => Except.error Err.error

/-- Embedding of `Numeric#encode()`: three digits pack into 10 bits, a final
pair into 7 bits, a final single digit into 4 bits. -/
def numericEncode : List Char → Except Err (List Bool)
  | code1 :: code2 :: code3 :: rest => do
    let value1 ← getNumericCode code1
    let value2 ← getNumericCode code2
    let value3 ← getNumericCode code3
    let tail ← numericEncode rest
    pure (appendBits [] (value1 * 100 + value2 * 10 + value3) 10 ++ tail)
  | [code1, code2] => do
    let value1 ← getNumericCode code1
    let value2 ← getNumericCode code2
    pure (appendBits [] (value1 * 10 + value2) 7)
  | [code1] => do
    let value1 ← getNumericCode code1
    pure (appendBits [] value1 4)
  | [] => pure []

/-! ### Terminator and padding (src/qrcode.js lines 2860-2879) -/

/-- Padding codewords appended by `appendTerminateBits`: alternating 0xec and
0x11, eight bits each, beginning with 0xec. -/
def padCodewordBits (numPaddingCodewords : ℕ) : List Bool :=
  (List.range numPaddingCodewords).flatMap
    (fun i => appendBits [] (if i &&& 0x01 = 1 then 0x11 else 0xec) 8)

/-- Embedding of `appendTerminateBits(bits, numDataCodewords)`: append up to
four terminator zero bits while below capacity, zero-pad the last byte, then
fill the remaining codewords with the alternating padding bytes. -/
def appendTerminateBits (bits : List Bool) (numDataCodewords : ℕ) : List Bool :=
  let capacity := numDataCodewords * 8
  let bits := bits ++ List.replicate (min 4 (capacity - bits.length)) false
  let numBitsInLastByte := bits.length &&& 0x07
  let bits :=
    if 0 < numBitsInLastByte then bits ++ List.replicate (8 - numBitsInLastByte) false
    else bits
  let numPaddingCodewords := numDataCodewords - byteLength bits
  bits ++ padCodewordBits numPaddingCodewords

/-! ### Symbol size estimation (src/qrcode.js lines 3865-3878)

`calculateSymbolSize` receives the two finder-pattern distances computed by
`distance` (square roots, hence modelled here as arbitrary nonnegative
rationals) together with the module size. -/

/-- Maximum version symbol size (src/qrcode.js line 1324). -/
def MAX_VERSION_SIZE : ℤ := 177

/-- Embedding of `calculateSymbolSize([topLeft, topRight, bottomLeft],
moduleSize)` with `width = distance(topLeft, topRight)` and
`height = distance(topLeft, bottomLeft)` passed directly.  JS `size & 0x03` on
the int32-converted size is the nonnegative residue of `size` modulo 4. -/
def calculateSymbolSize (width height moduleSize : ℚ) : ℤ :=
  let size := jsRound ((width + height) / moduleSize / 2) + 7
  if size % 4 = 0 then size + 1
  else if size % 4 = 2 then size - 1
  else if size % 4 = 3 then min (size + 2) MAX_VERSION_SIZE
  else size

/-- Modelled from the spec (claim C8 wording): the symbol size is
`round((|TL-TR| + |TL-BL|) / 2 / moduleSize) + 7` adjusted by its remainder
mod 4: +1 when 0, -1 when 2, +2 capped at 177 when 3, unchanged when 1. -/
def calculateSymbolSizeSpec (width height moduleSize : ℚ) : ℤ :=
  let size := jsRound ((width + height) / 2 / moduleSize) + 7
  if size % 4 = 0 then size + 1
  else if size % 4 = 2 then size - 1
  else if size % 4 = 3 then min (size + 2) 177
  else size

/-! ### Binarizer (src/qrcode.js lines 161-379)

Doubles are modelled by rationals; storing a double into a `Uint8Array` or an
`Int32Array` truncates toward zero (and wraps), which `jsToUint8` and
`toInt32Q` reproduce. -/

/-- JS ToUint8: truncate toward zero, then take the nonnegative residue
modulo 256 (the store semantics of a `Uint8Array`). -/
def jsToUint8 (q : ℚ) : ℕ :=
  (ratTrunc q % 256).toNat

/-- Luminance bucket constants (src/qrcode.js lines 161-163). -/
def LUMINANCE_BITS : ℕ := 5

/-- Right shift from 8-bit luminance to bucket index. -/
def LUMINANCE_SHIFT : ℕ := 8 - LUMINANCE_BITS

/-- Number of histogram buckets. -/
def LUMINANCE_BUCKETS : ℕ := 1 <<< LUMINANCE_BITS

/-- Embedding of a `BitMatrix`: the packed `Int32Array` rows are abstracted to
one natural-number bitmask with the bit of cell `(x, y)` at flat index
`y * width + x`. -/
structure BitMatrix : Type where
  width : ℕ
  height : ℕ
  bits : ℕ
  deriving DecidableEq

/-- Embedding of `BitMatrix.get(x, y)`. -/
def BitMatrix.get (m : BitMatrix) (x y : ℕ) : Bool :=
  m.bits.testBit (y * m.width + x)

/-- Embedding of `BitMatrix.set(x, y)`. -/
def BitMatrix.set (m : BitMatrix) (x y : ℕ) : BitMatrix :=
  { m with bits := m.bits ||| (1 <<< (y * m.width + x)) }

/-- First loop of `calculateBlackPoint`: the tallest peak of the histogram as
(index, size); ties keep the earliest index. -/
def firstPeakOf (buckets : List ℕ) : ℕ × ℕ :=
  (List.range buckets.length).foldl
    (fun acc x => if acc.2 < buckets.getD x 0 then (x, buckets.getD x 0) else acc)
    (0, 0)

/-- First loop of `calculateBlackPoint`, second accumulator: the tallest
bucket count. -/
def maxBucketCountOf (buckets : List ℕ) : ℕ :=
  (List.range buckets.length).foldl (fun acc x => max acc (buckets.getD x 0)) 0

/-- Second loop of `calculateBlackPoint`: the second peak, scored by bucket
count times squared distance from the first peak. -/
def secondPeakRawOf (buckets : List ℕ) (firstPeak : ℕ) : ℕ × ℤ :=
  (List.range buckets.length).foldl
    (fun (acc : ℕ × ℤ) (x : ℕ) =>
      let distanceToBiggest : ℤ := (x : ℤ) - (firstPeak : ℤ)
      let score : ℤ := (buckets.getD x 0 : ℤ) * distanceToBiggest * distanceToBiggest
      if acc.2 < score then (x, score) else acc)
    (0, 0)

/-- The two dominant peaks of `calculateBlackPoint` after the swap that makes
the first peak the smaller index. -/
def sortedPeaksOf (buckets : List ℕ) : ℕ × ℕ :=
  let firstPeak := (firstPeakOf buckets).1
  let secondPeak := (secondPeakRawOf buckets firstPeak).1
  if secondPeak < firstPeak then (secondPeak, firstPeak) else (firstPeak, secondPeak)

/-- Embedding of `calculateBlackPoint(buckets)` (src/qrcode.js lines 164-212):
returns -1 when the two peaks are too close, else the best valley shifted back
to the luminance scale. -/
def calculateBlackPoint (buckets : List ℕ) : ℤ :=
  let firstPeak := (sortedPeaksOf buckets).1
  let secondPeak := (sortedPeaksOf buckets).2
  let maxBucketCount := maxBucketCountOf buckets
  if secondPeak - firstPeak ≤ LUMINANCE_BUCKETS / 16 then -1
  else
    let valley := (List.range (secondPeak - 1 - firstPeak)).foldl
      (fun acc i =>
        let x := secondPeak - 1 - i
        let fromFirst := x - firstPeak
        let score : ℤ := (fromFirst : ℤ) * (fromFirst : ℤ) * ((secondPeak : ℤ) - (x : ℤ)) *
          ((maxBucketCount : ℤ) - (buckets.getD x 0 : ℤ))
        if acc.2 < score then (x, score) else acc)
      (secondPeak - 1, (-1 : ℤ))
    ((valley.1 <<< LUMINANCE_SHIFT : ℕ) : ℤ)

/-- Histogram sampling of `histogram` (src/qrcode.js lines 216-223): bucket
counts over the middle region, rows `y/5` for `y = 1..4`, columns
`width/5 ≤ x < width*4/5`. -/
def histogramBuckets (luminances : List ℕ) (width height : ℕ) : List ℕ :=
  (List.range 4).foldl
    (fun buckets y0 =>
      let y := y0 + 1
      let right := width * 4 / 5
      let offset := height * y / 5 * width
      (List.range (right - width / 5)).foldl
        (fun buckets dx =>
          let x := width / 5 + dx
          let pixel := luminances.getD (offset + x) 0
          let idx := pixel >>> LUMINANCE_SHIFT
          buckets.set idx (buckets.getD idx 0 + 1))
        buckets)
    (List.replicate LUMINANCE_BUCKETS 0)

/-- Embedding of `histogram(luminances, width, height)` (src/qrcode.js lines
213-240): when the black point estimation fails (nonpositive), the fresh
matrix is returned untouched. -/
def histogram (luminances : List ℕ) (width height : ℕ) : BitMatrix :=
  let buckets := histogramBuckets luminances width height
  let blackPoint := calculateBlackPoint buckets
  if 0 < blackPoint then
    (List.range height).foldl
      (fun matrix y =>
        (List.range width).foldl
          (fun matrix x =>
            if (luminances.getD (y * width + x) 0 : ℤ) < blackPoint then matrix.set x y
            else matrix)
          matrix)
      ⟨width, height, 0⟩
  else ⟨width, height, 0⟩

/-- Block size constants of the adaptive threshold (src/qrcode.js lines
245-249). -/
def BLOCK_SIZE_POWER : ℕ := 3

/-- Adaptive-threshold block size. -/
def BLOCK_SIZE : ℕ := 1 <<< BLOCK_SIZE_POWER

/-- Mask of the block size. -/
def BLOCK_SIZE_MASK : ℕ := BLOCK_SIZE - 1

/-- Minimum dynamic range of a block. -/
def MIN_DYNAMIC_RANGE : ℕ := 24

/-- Dimension below which the histogram binarizer is used. -/
def MINIMUM_DIMENSION : ℕ := BLOCK_SIZE * 5

/-- Embedding of `calculateSubSize(size)`. -/
def calculateSubSize (size : ℕ) : ℕ :=
  let subSize := size >>> BLOCK_SIZE_POWER
  if size &&& BLOCK_SIZE_MASK ≠ 0 then subSize + 1 else subSize

/-- Embedding of `clamp(value, max)` of the adaptive threshold. -/
def clampBlock (value max : ℕ) : ℕ :=
  if value < 2 then 2 else min value max

/-- Embedding of `calculateOffset(offset, max)`. -/
def calculateOffset (offset max : ℕ) : ℕ :=
  let offset := offset <<< BLOCK_SIZE_POWER
  if max < offset then max else offset

/-- Per-block statistics (sum, min, max) of an 8x8 block, with the source
short-circuit: once the dynamic range is met after a row, the remaining rows
only contribute to the sum. -/
def blockStats (luminances : List ℕ) (width offsetX offsetY : ℕ) : ℕ × ℕ × ℕ :=
  let stats := (List.range BLOCK_SIZE).foldl
    (fun (acc : ℕ × ℕ × ℕ × Bool) y1 =>
      let (sum, mn, mx, shortCircuited) := acc
      let base := (offsetY + y1) * width + offsetX
      if shortCircuited then
        ((List.range BLOCK_SIZE).foldl (fun s x1 => s + luminances.getD (base + x1) 0) sum,
          mn, mx, true)
      else
        let rowAcc := (List.range BLOCK_SIZE).foldl
          (fun (acc : ℕ × ℕ × ℕ) x1 =>
            let pixel := luminances.getD (base + x1) 0
            (acc.1 + pixel, min acc.2.1 pixel, max acc.2.2 pixel))
          (sum, mn, mx)
        (rowAcc.1, rowAcc.2.1, rowAcc.2.2, MIN_DYNAMIC_RANGE < rowAcc.2.2 - rowAcc.2.1))
    (0, 0xff, 0, false)
  (stats.1, stats.2.1, stats.2.2.1)

/-- Embedding of `calculateBlackPoints(luminances, width, height)`: the grid
of per-block black points, with the low-contrast neighbour correction; values
are stored into an `Int32Array`, hence truncated. -/
def blackPointsOf (luminances : List ℕ) (width height : ℕ) : List (List ℤ) :=
  let maxOffsetX := width - BLOCK_SIZE
  let maxOffsetY := height - BLOCK_SIZE
  let subWidth := calculateSubSize width
  let subHeight := calculateSubSize height
  (List.range subHeight).foldl
    (fun blackPoints y =>
      let offsetY := calculateOffset y maxOffsetY
      let row := (List.range subWidth).foldl
        (fun row x =>
          let offsetX := calculateOffset x maxOffsetX
          let stats := blockStats luminances width offsetX offsetY
          let sum := stats.1
          let mn := stats.2.1
          let mx := stats.2.2
          let average : ℚ :=
            if mx - mn ≤ MIN_DYNAMIC_RANGE then
              let low : ℚ := (mn : ℚ) / 2
              if 0 < y ∧ 0 < x then
                let averageNeighborBlackPoint : ℚ :=
                  (((blackPoints.getD (y - 1) []).getD x 0 + 2 * row.getD (x - 1) 0 +
                    (blackPoints.getD (y - 1) []).getD (x - 1) 0 : ℤ) : ℚ) / 4
                if (mn : ℚ) < averageNeighborBlackPoint then averageNeighborBlackPoint
                else low
              else low
            else ((sum >>> (BLOCK_SIZE_POWER * 2) : ℕ) : ℚ)
          row ++ [toInt32Q average])
        []
      blackPoints ++ [row])
    []

/-- Embedding of `adaptiveThreshold(luminances, width, height)` (src/qrcode.js
lines 329-359). -/
def adaptiveThreshold (luminances : List ℕ) (width height : ℕ) : BitMatrix :=
  let maxOffsetX := width - BLOCK_SIZE
  let maxOffsetY := height - BLOCK_SIZE
  let subWidth := calculateSubSize width
  let subHeight := calculateSubSize height
  let blackPoints := blackPointsOf luminances width height
  (List.range subHeight).foldl
    (fun matrix y =>
      let top := clampBlock y (subHeight - 3)
      let offsetY := calculateOffset y maxOffsetY
      (List.range subWidth).foldl
        (fun matrix x =>
          let left := clampBlock x (subWidth - 3)
          let offsetX := calculateOffset x maxOffsetX
          let sum : ℤ := (List.range 5).foldl
            (fun s dz =>
              let blackRow := blackPoints.getD (top - 2 + dz) []
              s + blackRow.getD (left - 2) 0 + blackRow.getD (left - 1) 0 +
                blackRow.getD left 0 + blackRow.getD (left + 1) 0 +
                blackRow.getD (left + 2) 0)
            0
          let average : ℚ := (sum : ℚ) / 25
          (List.range BLOCK_SIZE).foldl
            (fun matrix yy =>
              (List.range BLOCK_SIZE).foldl
                (fun matrix xx =>
                  if (luminances.getD ((offsetY + yy) * width + (offsetX + xx)) 0 : ℚ) ≤ average
                  then matrix.set (offsetX + xx) (offsetY + yy)
                  else matrix)
                matrix)
            matrix)
        matrix)
    ⟨width, height, 0⟩

/-- Luminance conversion loop of `binarize`: `Y = 0.299R + 0.587G + 0.114B`
per pixel, stored as a `Uint8Array` element. -/
def luminancesOf (data : List ℕ) (width height : ℕ) : List ℕ :=
  (List.range (width * height)).map (fun index =>
    let colorIndex := index * 4
    let r := data.getD colorIndex 0
    let g := data.getD (colorIndex + 1) 0
    let b := data.getD (colorIndex + 2) 0
    jsToUint8 ((r : ℚ) * 0.299 + (g : ℚ) * 0.587 + (b : ℚ) * 0.114))

/-- Embedding of `binarize({data, width, height})` (src/qrcode.js lines
360-379): RGBA bytes to luminances, then histogram or adaptive threshold by
image size.  The function is total: no path of the source throws. -/
def binarize (data : List ℕ) (width height : ℕ) : BitMatrix :=
  let luminances := luminancesOf data width height
  if width < MINIMUM_DIMENSION ∨ height < MINIMUM_DIMENSION then
    histogram luminances width height
  else
    adaptiveThreshold luminances width height

/-! ### Decoder control flow (src/qrcode.js lines 2361-2389)

`Decoder.decode` is the try/catch driver over the matrix parser.  Its
primitive operations (version read, format read, the unmask/read/RS-correct
pipeline `parse`, `remask`, `mirror`, and the final content decode) are taken
as parameters of type `ParserOps`; the source's `readVersion` and
`readFormatInfo` are pure reads, while `parse` mutates the parser matrix (it
unmasks it) even when it throws, so it returns the new state alongside its
result. -/

/-- Parameter record for the operations `Decoder.decode` calls on the
`BitMatrixParser` (state type `σ`) and on the bitstream decoder. -/
structure ParserOps (σ V F CW C : Type) : Type where
  readVersion : σ → Except Err V
  readFormatInfo : σ → Except Err F
  parse : σ → V → F → σ × Except Err (CW × ℕ)
  maskOf : F → ℕ
  remask : σ → ℕ → σ
  mirror : σ → σ
  decodeContent : CW → V → F → Except Err C

/-- Embedding of the result record `new QRCode(content, version, formatInfo,
corrected, mirror)` restricted to the fields the control-flow claim talks
about. -/
structure DecodedQRCode (V F CW C : Type) : Type where
  content : C
  version : V
  formatInfo : F
  corrected : ℕ
  mirror : Bool
  deriving DecidableEq

/-- One attempt of the try-block body: read version, read format info, then
parse.  It returns the state after the attempt together with the format info
observed so far (the value of the JS `formatInfo` variable when an exception
escapes the block). -/
def decodeAttempt {σ V F CW C : Type} (ops : ParserOps σ V F CW C) (s : σ) :
    (σ × Option F) × Except Err (V × F × CW × ℕ) :=
  match ops.readVersion s with
  | .error e => ((s, none), .error e)
  | .ok version =>
    match ops.readFormatInfo s with
    | .error e => ((s, none), .error e)
    | .ok formatInfo =>
      match ops.parse s version formatInfo with
      | (s1, .error e) => ((s1, some formatInfo), .error e)
      | (s1, .ok (codewords, corrected)) =>
        ((s1, some formatInfo), .ok (version, formatInfo, codewords, corrected))

/-- Embedding of `Decoder#decode(matrix)`: try a direct decode; on any failure
between the version read and RS correction, re-apply the last observed format
mask (when one was read), mirror, and retry exactly once; then decode the
codewords into content outside of the try/catch. -/
def Decoder.decode {σ V F CW C : Type} (ops : ParserOps σ V F CW C) (s : σ) :
    Except Err (DecodedQRCode V F CW C) :=
  match decodeAttempt ops s with
  | (_, .ok (version, formatInfo, codewords, corrected)) =>
    (ops.decodeContent codewords version formatInfo).map
      (fun content => ⟨content, version, formatInfo, corrected, false⟩)
  | ((s1, observedFormatInfo), .error _) =>
    let s2 :=
      match observedFormatInfo with
      | some formatInfo => ops.remask s1 (ops.maskOf formatInfo)
      | none => s1
    let s3 := ops.mirror s2
    match decodeAttempt ops s3 with
    | (_, .ok (version, formatInfo, codewords, corrected)) =>
      (ops.decodeContent codewords version formatInfo).map
        (fun content => ⟨content, version, formatInfo, corrected, true⟩)
    | (_, .error e) => .error e

/-! ### BitMatrixParser.mirror (src/qrcode.js lines 1890-1901)

The parser matrix is modelled as a function from coordinates to bits; the
source walks every pair `x < y` and swaps the two cells when they differ. -/

/-- Point update of a function matrix, the effect of one `matrix.flip(x, y)`. -/
def matrixFlip (m : ℕ → ℕ → Bool) (x y : ℕ) : ℕ → ℕ → Bool :=
  fun a b => if a = x ∧ b = y then !(m x y) else m a b

/-- Body of the inner loop of `mirror`: flip `(x, y)` and `(y, x)` when the
two cells differ. -/
def mirrorStep (m : ℕ → ℕ → Bool) (p : ℕ × ℕ) : ℕ → ℕ → Bool :=
  if m p.1 p.2 ≠ m p.2 p.1 then matrixFlip (matrixFlip m p.1 p.2) p.2 p.1 else m

/-- Index pairs visited by `mirror`: for `x` in `0..size-1`, `y` in
`x+1..size-1`. -/
def mirrorPairs (size : ℕ) : List (ℕ × ℕ) :=
  (List.range size).flatMap
    (fun x => (List.range (size - (x + 1))).map (fun i => (x, x + 1 + i)))

/-- Embedding of `BitMatrixParser#mirror()` on a function matrix of the given
size. -/
def mirrorMatrix (size : ℕ) (m : ℕ → ℕ → Bool) : ℕ → ℕ → Bool :=
  (mirrorPairs size).foldl mirrorStep m

/-- Concrete parser operations used to witness the decoder retry policy: the
state is a counter, `parse` fails exactly on the initial state and mutates the
state, `remask` adds the mask, `mirror` increments. -/
def witnessOps : ParserOps ℕ ℕ ℕ ℕ ℕ where
  readVersion := fun _ => Except.ok 1
  readFormatInfo := fun _ => Except.ok 7
  parse := fun s _ _ => (s + 100, if s = 0 then Except.error Err.error else Except.ok (5, 2))
  maskOf := fun f => f
  remask := fun s mask => s + mask
  mirror := fun s => s + 1
  decodeContent := fun codewords version formatInfo =>
    Except.ok (codewords + version + formatInfo)

/-! ### Theorems -/

set_option maxRecDepth 100000

/-- C3: for every ECC level in {L, M, Q, H} and every mask in 0..7, the 15-bit
format word built by `makeFormatInfoBits` equals the 5-bit value
`(level_bits << 3) | mask` followed by its 10-bit BCH remainder under
polynomial 0x537, the whole xored with 0x5412; that word paired with the 5-bit
value is exactly an entry of `FORMAT_INFO_DECODE_TABLE`; and `decodeFormatInfo`
applied to that word (in both replicas) returns the same mask and level. -/
theorem makeFormatInfoBits_decodeFormatInfo_roundTrip :
    ∀ (level : ECLevel) (mask : Fin 8),
      bitsToNat (makeFormatInfoBits level mask.val) =
        ((((level.bits <<< 3) ||| mask.val) <<< 10) |||
          calculateBCHCode ((level.bits <<< 3) ||| mask.val) 0x537) ^^^ 0x5412
      ∧ (bitsToNat (makeFormatInfoBits level mask.val), (level.bits <<< 3) ||| mask.val)
          ∈ FORMAT_INFO_DECODE_TABLE
      ∧ decodeFormatInfo (bitsToNat (makeFormatInfoBits level mask.val))
          (bitsToNat (makeFormatInfoBits level mask.val)) =
          Except.ok ⟨mask.val, level⟩ := by
  decide


/-- C6 counterexample: encoding the numeric content "01234567" does not
produce the bit string 0000110001 0101011001 1000011 stated by the spec; the
first 10-bit group differs. -/
theorem numericEncode_01234567_claim_false :
    numericEncode ['0', '1', '2', '3', '4', '5', '6', '7'] ≠
      Except.ok [false, false, false, false, true, true, false, false, false, true,
        false, true, false, true, false, true, true, false, false, true,
        true, false, false, false, false, true, true] := by
  decide

/-- C6 (amended): encoding the numeric content "01234567" produces the
segment-body bit string 0000001100 0101011001 1000011: a 10-bit group for the
digits 012, a 10-bit group for 345, and a 7-bit group for 67. -/
theorem numericEncode_01234567 :
    numericEncode ['0', '1', '2', '3', '4', '5', '6', '7'] =
      Except.ok [false, false, false, false, false, false, true, true, false, false,
        false, true, false, true, false, true, true, false, false, true,
        true, false, false, false, false, true, true] := by
  decide

/-- C8: for every pair of finder distances and every positive module size,
`calculateSymbolSize` computes `round((|TL-TR| + |TL-BL|) / 2 / moduleSize) + 7`
adjusted by its remainder mod 4 (+1 when 0, -1 when 2, +2 capped at 177 when
3, unchanged when 1), and the returned size is always congruent to 1 modulo
4. -/
theorem calculateSymbolSize_spec (width height moduleSize : ℚ) (h : 0 < moduleSize) :
    calculateSymbolSize width height moduleSize =
      calculateSymbolSizeSpec width height moduleSize ∧
    calculateSymbolSize width height moduleSize % 4 = 1 := by
  have hdiv : (width + height) / moduleSize / 2 = (width + height) / 2 / moduleSize :=
    div_right_comm _ _ _
  constructor
  · unfold calculateSymbolSize calculateSymbolSizeSpec MAX_VERSION_SIZE
    rw [hdiv]
  · unfold calculateSymbolSize MAX_VERSION_SIZE
    set s := jsRound ((width + height) / moduleSize / 2) + 7 with hs
    have h4 : s % 4 = 0 ∨ s % 4 = 1 ∨ s % 4 = 2 ∨ s % 4 = 3 := by omega
    rcases h4 with h4 | h4 | h4 | h4 <;> simp only [h4] <;> norm_num
    · omega
    · omega
    · omega
    · rcases le_total (s + 2) (177 : ℤ) with hle | hle
      · rw [min_eq_left hle]; omega
      · rw [min_eq_right hle]; norm_num

/-- C8 witness: a concrete triple with unit module size; the direct size is 28
(remainder 0), so the returned size is 29. -/
theorem calculateSymbolSize_spec_witness :
    (0 : ℚ) < 1 ∧ calculateSymbolSize 21 21 1 % 4 = 1 ∧ calculateSymbolSize 21 21 1 = 29 :=
  ⟨by norm_num, (calculateSymbolSize_spec 21 21 1 (by norm_num)).2, by with_unfolding_all rfl⟩

/-- C9: the built-in text encoder never fails on out-of-range characters: it
returns the mapped codes for charsets ASCII and ISO-8859-1, the output has one
byte per character, a character whose code exceeds the charset bound (0x7F for
ASCII, 0xFF for ISO-8859-1) becomes byte 63, and every in-range character is
kept as its own code. -/
theorem builtinEncode_never_fails (content : List ℕ) :
    builtinEncode content Charset.ASCII = Except.ok (getCharCodes content 0x7f) ∧
    builtinEncode content Charset.ISO_8859_1 = Except.ok (getCharCodes content 0xff) ∧
    (∀ maxCode, (getCharCodes content maxCode).length = content.length) ∧
    ∀ maxCode i, i < content.length →
      (maxCode < charCodeAt0 (content.getD i 0) →
        (getCharCodes content maxCode).getD i 0 = 63) ∧
      (charCodeAt0 (content.getD i 0) ≤ maxCode →
        (getCharCodes content maxCode).getD i 0 = charCodeAt0 (content.getD i 0)) := by
  refine ⟨rfl, rfl, fun maxCode => by simp [getCharCodes], fun maxCode i hi => ?_⟩
  have hf0 : (fun character : ℕ =>
      let code := charCodeAt0 character
      if maxCode < code then 63 else code) 0 = 0 := by
    simp [charCodeAt0]
  have hmap : (getCharCodes content maxCode).getD i 0 =
      (let code := charCodeAt0 (content.getD i 0)
       if maxCode < code then 63 else code) := by
    unfold getCharCodes
    conv_lhs => rw [← hf0]
    exact List.getD_map content 0 _
  constructor
  · intro hgt
    rw [hmap]
    simp only [if_pos hgt]
  · intro hle
    rw [hmap]
    simp only [if_neg (by omega : ¬ maxCode < charCodeAt0 (content.getD i 0))]

/-- C9 witness: the two-character content A, é under charset ASCII; é has code
0xE9 > 0x7F and is encoded as byte 63. -/
theorem builtinEncode_never_fails_witness :
    (1 < 2) ∧ (0x7f < charCodeAt0 0xE9) ∧
      (getCharCodes [0x41, 0xE9] 0x7f).getD 1 0 = 63 :=
  ⟨by norm_num, by decide,
    ((builtinEncode_never_fails [0x41, 0xE9]).2.2.2 0x7f 1 (by norm_num)).1 (by decide)⟩

/-- Length of the padding bit run: eight bits per padding codeword. -/
theorem padCodewordBits_length (n : ℕ) : (padCodewordBits n).length = 8 * n := by
  induction n with
  | zero => simp [padCodewordBits]
  | succ k ih =>
    unfold padCodewordBits at ih ⊢
    rw [List.range_succ, List.flatMap_append]
    simp only [List.length_append, ih, List.flatMap_cons, List.flatMap_nil, List.append_nil]
    simp [appendBits]
    omega

/-- C10: for every bit stream whose length fits the data capacity,
`appendTerminateBits` produces a byte-aligned stream of exactly
`numDataCodewords` bytes: the input followed by at most four terminator zero
bits (`min 4 (capacity - length)`), zero padding of the last byte, and the
alternating pad codewords 0xEC, 0x11 beginning with 0xEC. -/
theorem appendTerminateBits_spec (bits : List Bool) (numDataCodewords : ℕ)
    (h : bits.length ≤ numDataCodewords * 8) :
    (appendTerminateBits bits numDataCodewords).length = numDataCodewords * 8 ∧
    byteLength (appendTerminateBits bits numDataCodewords) = numDataCodewords ∧
    ∃ terminatorZeros alignZeros padCount,
      terminatorZeros = min 4 (numDataCodewords * 8 - bits.length) ∧
      alignZeros < 8 ∧
      (bits.length + terminatorZeros + alignZeros) % 8 = 0 ∧
      appendTerminateBits bits numDataCodewords =
        bits ++ List.replicate (terminatorZeros + alignZeros) false ++
          padCodewordBits padCount := by
  have hand : ∀ m : ℕ, m &&& 0x07 = m % 8 := fun m => by
    have := Nat.and_pow_two_sub_one_eq_mod m 3
    simpa using this
  have hunfold : appendTerminateBits bits numDataCodewords =
      bits ++ List.replicate (min 4 (numDataCodewords * 8 - bits.length)) false ++
        List.replicate ((8 - (bits.length + min 4 (numDataCodewords * 8 - bits.length)) % 8) % 8)
          false ++
        padCodewordBits (numDataCodewords -
          (bits.length + min 4 (numDataCodewords * 8 - bits.length) +
            (8 - (bits.length + min 4 (numDataCodewords * 8 - bits.length)) % 8) % 8) / 8) := by
    unfold appendTerminateBits
    dsimp only
    rw [hand]
    simp only [List.length_append, List.length_replicate]
    rcases Nat.eq_zero_or_pos ((bits.length + min 4 (numDataCodewords * 8 - bits.length)) % 8)
      with h0 | h0
    · rw [if_neg (by omega)]
      rw [show (8 - (bits.length + min 4 (numDataCodewords * 8 - bits.length)) % 8) % 8 = 0
        by omega]
      rw [List.replicate_zero, List.append_nil]
      congr 2
      unfold byteLength
      simp only [List.length_append, List.length_replicate]
      omega
    · rw [if_pos h0]
      conv_lhs => rw [show 8 - (bits.length + min 4 (numDataCodewords * 8 - bits.length)) % 8 =
        (8 - (bits.length + min 4 (numDataCodewords * 8 - bits.length)) % 8) % 8 by omega]
      congr 2
      unfold byteLength
      simp only [List.length_append, List.length_replicate]
      omega
  have hlenAll : (appendTerminateBits bits numDataCodewords).length = numDataCodewords * 8 := by
    rw [hunfold]
    simp only [List.length_append, List.length_replicate, padCodewordBits_length]
    omega
  refine ⟨hlenAll, ?_,
    min 4 (numDataCodewords * 8 - bits.length),
    (8 - (bits.length + min 4 (numDataCodewords * 8 - bits.length)) % 8) % 8,
    numDataCodewords -
      (bits.length + min 4 (numDataCodewords * 8 - bits.length) +
        (8 - (bits.length + min 4 (numDataCodewords * 8 - bits.length)) % 8) % 8) / 8,
    rfl, by omega, by omega, ?_⟩
  · unfold byteLength
    rw [hlenAll]
    omega
  · rw [hunfold]
    rw [List.replicate_add]
    simp [List.append_assoc]

/-- C10 witness: a 3-bit stream padded to three data codewords; the result is
the stream, 4 terminator zeros, 1 alignment zero, then pad bytes 0xEC and
0x11. -/
theorem appendTerminateBits_spec_witness :
    ([true, false, true].length ≤ 3 * 8) ∧
      (appendTerminateBits [true, false, true] 3).length = 3 * 8 ∧
      byteLength (appendTerminateBits [true, false, true] 3) = 3 ∧
      appendTerminateBits [true, false, true] 3 =
        [true, false, true, false, false, false, false, false,
         true, true, true, false, true, true, false, false,
         false, false, false, true, false, false, false, true] := by
  refine ⟨by norm_num, (appendTerminateBits_spec [true, false, true] 3 (by norm_num)).1,
    (appendTerminateBits_spec [true, false, true] 3 (by norm_num)).2.1, by decide⟩


theorem shiftRight_le_shiftRight (a b s : ℕ) (h : a ≤ b) : a >>> s ≤ b >>> s := by
  simp only [Nat.shiftRight_eq_div_pow]
  exact Nat.div_le_div_right h

theorem shiftLeft_shiftRight_cancel (a s : ℕ) : (a <<< s) >>> s = a := by
  rw [Nat.shiftLeft_eq, Nat.shiftRight_eq_div_pow]
  exact Nat.mul_div_cancel _ (Nat.pos_pow_of_pos s (by norm_num))

theorem mask_shift_lt (x t s : ℕ) (ht : t ≤ 8) :
    ((x &&& ((0xff >>> (8 - t)) <<< s)) >>> s) < 2 ^ t := by
  have h2 : ((x &&& ((0xff >>> (8 - t)) <<< s)) >>> s) ≤ (((0xff >>> (8 - t)) <<< s) >>> s) :=
    shiftRight_le_shiftRight _ _ _ Nat.and_le_right
  rw [shiftLeft_shiftRight_cancel] at h2
  have h4 : 0xff >>> (8 - t) < 2 ^ t := by interval_cases t <;> decide
  omega

theorem shiftLeft_or_lt (a b m l : ℕ) (ha : a < 2 ^ m) (hb : b < 2 ^ l) :
    (a <<< l) ||| b < 2 ^ (m + l) := by
  apply Nat.or_lt_two_pow
  · rw [Nat.shiftLeft_eq, pow_add]
    exact Nat.mul_lt_mul_of_lt_of_le ha (le_refl _) (Nat.pos_pow_of_pos l (by norm_num))
  · calc b < 2 ^ l := hb
      _ ≤ 2 ^ (m + l) := Nat.pow_le_pow_right (by norm_num) (by omega)

theorem shiftLeft_lor_eq_add (a : ℕ) : ∀ (k s : ℕ), s < 2 ^ k → (a <<< k) ||| s = a * 2 ^ k + s := by
  intro k
  induction k generalizing a with
  | zero =>
    intro s hs
    interval_cases s
    simp
  | succ k ih =>
    intro s hs
    have hs2 : s / 2 < 2 ^ k := by rw [Nat.pow_succ] at hs; omega
    have h1 : a <<< (k + 1) = Nat.bit false ((a <<< k)) := by
      show a <<< (k + 1) = 2 * (a <<< k)
      rw [Nat.shiftLeft_eq, Nat.shiftLeft_eq, Nat.pow_succ]
      ring
    have h2 : s = Nat.bit (decide (s % 2 = 1)) (s / 2) := by
      rcases Nat.mod_two_eq_zero_or_one s with h | h <;> simp [Nat.bit, h] <;> omega
    rw [h1, h2, Nat.lor_bit, ih _ _ hs2]
    rcases Nat.mod_two_eq_zero_or_one s with h | h <;>
      simp [Nat.bit, h, Nat.pow_succ] <;> ring_nf <;> omega

theorem readFirstPartial_lt (bytes : List ℕ) (bo byo n : ℕ) (h : bo < 8) :
    (readFirstPartial bytes bo byo n).1 < 2 ^ (n - (readFirstPartial bytes bo byo n).2.1) ∧
      (readFirstPartial bytes bo byo n).2.1 ≤ n := by
  unfold readFirstPartial
  dsimp only
  split
  · next hbo =>
    have htr : min n (8 - bo) ≤ 8 := by omega
    have hrlt := mask_shift_lt (bytes.getD byo 0) (min n (8 - bo)) ((8 - bo) - min n (8 - bo)) htr
    split <;> simp only <;> constructor <;> first
      | (convert hrlt using 2 <;> omega)
      | omega
  · exact ⟨by norm_num, by simp⟩

theorem readWholeBytes_lt (bytes : List ℕ) (count result byo m : ℕ) (h : result < 2 ^ m) :
    (readWholeBytes bytes count result byo).1 < 2 ^ (m + 8 * count) := by
  induction count generalizing result byo m with
  | zero => simpa [readWholeBytes] using h
  | succ k ih =>
    have hstep : readWholeBytes bytes (k + 1) result byo =
        ((((readWholeBytes bytes k result byo).1 <<< 8) |||
          ((bytes.getD (readWholeBytes bytes k result byo).2 0) &&& 0xff)),
          (readWholeBytes bytes k result byo).2 + 1) := by
      unfold readWholeBytes
      rw [List.range_succ, List.foldl_append]
      simp
    rw [hstep]
    have hb : (bytes.getD (readWholeBytes bytes k result byo).2 0) &&& 0xff < 2 ^ 8 := by
      have := Nat.and_le_right (n := bytes.getD (readWholeBytes bytes k result byo).2 0)
        (m := 0xff)
      omega
    have hlt := shiftLeft_or_lt _ _ _ _ (ih result byo m h) hb
    have heq : m + 8 * k + 8 = m + 8 * (k + 1) := by ring
    rw [heq] at hlt
    exact hlt

theorem readLastPartial_lt (bytes : List ℕ) (rest result bo byo m : ℕ)
    (hrest : rest < 8) (h : result < 2 ^ m) :
    (readLastPartial bytes rest result bo byo).1 < 2 ^ (m + rest) := by
  unfold readLastPartial
  split
  · have hm := mask_shift_lt (bytes.getD byo 0) rest (8 - rest) (by omega)
    simp only
    exact shiftLeft_or_lt _ _ _ _ h hm
  · next hr =>
    have hrest0 : rest = 0 := by omega
    simpa [hrest0] using h

theorem read_lt (src : BitSource) (n : ℕ) (h : src.bitOffset < 8) :
    (src.read n).1 < 2 ^ n := by
  obtain ⟨hfst, hle⟩ := readFirstPartial_lt src.bytes src.bitOffset src.byteOffset n h
  set s1 := readFirstPartial src.bytes src.bitOffset src.byteOffset n with hs1
  have hw := readWholeBytes_lt src.bytes (s1.2.1 / 8) s1.1 s1.2.2.2 _ hfst
  have hl := readLastPartial_lt src.bytes (s1.2.1 % 8)
    (readWholeBytes src.bytes (s1.2.1 / 8) s1.1 s1.2.2.2).1 s1.2.2.1
    (readWholeBytes src.bytes (s1.2.1 / 8) s1.1 s1.2.2.2).2 _
    (Nat.mod_lt _ (by norm_num)) hw
  have hexp : n - s1.2.1 + 8 * (s1.2.1 / 8) + s1.2.1 % 8 = n := by omega
  unfold BitSource.read
  rw [← hs1]
  rw [hexp] at hl
  exact hl

theorem readFirstPartial_bitOffset (bytes : List ℕ) (bo byo n : ℕ) (h : bo < 8) :
    (readFirstPartial bytes bo byo n).2.2.1 + (readFirstPartial bytes bo byo n).2.1 % 8 < 8 := by
  unfold readFirstPartial
  dsimp only
  split
  · next hbo =>
    split
    · next heq => simp only; omega
    · next hne =>
      simp only
      have hmin : min n (8 - bo) = n ∨ min n (8 - bo) = 8 - bo := by omega
      rcases hmin with hmin | hmin
      · omega
      · omega
  · next hbo =>
    simp only
    omega

theorem read_bitOffset_lt (src : BitSource) (n : ℕ) (h : src.bitOffset < 8) :
    ((src.read n).2).bitOffset < 8 := by
  have hfp := readFirstPartial_bitOffset src.bytes src.bitOffset src.byteOffset n h
  unfold BitSource.read readLastPartial
  dsimp only
  split
  · dsimp only
    omega
  · dsimp only
    omega

set_option maxRecDepth 1000000 in
theorem byte_and_mod : ∀ x, x < 256 →
    x &&& 0x7f = x % 0x80 ∧ x &&& 0x3f = x % 0x40 ∧ x &&& 0x1f = x % 0x20 := by
  decide

set_option maxRecDepth 1000000 in
theorem byte_prefix_excl : ∀ x, x < 256 →
    (x &&& 0xc0 = 0x80 → ¬ x &&& 0x80 = 0) ∧
    (x &&& 0xe0 = 0xc0 → ¬ x &&& 0x80 = 0 ∧ ¬ x &&& 0xc0 = 0x80) ∧
    (x &&& 0xe0 = 0xe0 → ¬ x &&& 0x80 = 0 ∧ ¬ x &&& 0xc0 = 0x80 ∧ ¬ x &&& 0xe0 = 0xc0) := by
  decide

/-- C7: `parseECIValue` reads the ECI designator according to the first
byte's leading bit pattern: high bit 0 gives the low 7 bits of that single
byte; prefix 10 gives the 14 bits formed from the low 6 bits of the first byte
and one further byte; prefix 110 gives the 21 bits formed from the low 5 bits
of the first byte and two further bytes; and every first byte with prefix 111
fails deterministically without returning a value. -/
theorem parseECIValue_spec (src : BitSource) (h : src.bitOffset < 8) :
    ((src.read 8).1 &&& 0x80 = 0 →
      parseECIValue src = Except.ok ((src.read 8).1 % 0x80, (src.read 8).2)) ∧
    ((src.read 8).1 &&& 0xc0 = 0x80 →
      parseECIValue src =
        Except.ok (((src.read 8).1 % 0x40) * 0x100 + ((src.read 8).2.read 8).1,
          ((src.read 8).2.read 8).2)) ∧
    ((src.read 8).1 &&& 0xe0 = 0xc0 →
      parseECIValue src =
        Except.ok (((src.read 8).1 % 0x20) * 0x10000 + ((src.read 8).2.read 16).1,
          ((src.read 8).2.read 16).2)) ∧
    ((src.read 8).1 &&& 0xe0 = 0xe0 →
      parseECIValue src = Except.error Err.error) := by
  have hb : (src.read 8).1 < 256 := by
    have := read_lt src 8 h
    norm_num at this
    exact this
  have hbo2 : (src.read 8).2.bitOffset < 8 := read_bitOffset_lt src 8 h
  have hs2 : ((src.read 8).2.read 8).1 < 2 ^ 8 := read_lt _ 8 hbo2
  have hs3 : ((src.read 8).2.read 16).1 < 2 ^ 16 := read_lt _ 16 hbo2
  obtain ⟨hm7, hm6, hm5⟩ := byte_and_mod _ hb
  obtain ⟨hx1, hx2, hx3⟩ := byte_prefix_excl _ hb
  refine ⟨fun hc => ?_, fun hc => ?_, fun hc => ?_, fun hc => ?_⟩
  · unfold parseECIValue
    rw [if_pos hc, hm7]
  · unfold parseECIValue
    rw [if_neg (hx1 hc), if_pos hc]
    dsimp only
    rw [shiftLeft_lor_eq_add _ 8 _ hs2, hm6]
    norm_num
  · unfold parseECIValue
    rw [if_neg (hx2 hc).1, if_neg (hx2 hc).2, if_pos hc]
    dsimp only
    rw [shiftLeft_lor_eq_add _ 16 _ hs3, hm5]
    norm_num
  · unfold parseECIValue
    rw [if_neg (hx3 hc).1, if_neg (hx3 hc).2.1, if_neg (hx3 hc).2.2]

/-- C7 witness: the two-byte stream 0x95 0x42 begins with prefix 10 and
parses to designator 0x1542. -/
theorem parseECIValue_spec_witness :
    ((⟨[0x95, 0x42], 0, 0⟩ : BitSource).bitOffset < 8) ∧
      ((⟨[0x95, 0x42], 0, 0⟩ : BitSource).read 8).1 &&& 0xc0 = 0x80 ∧
      parseECIValue ⟨[0x95, 0x42], 0, 0⟩ =
        Except.ok (0x1542, ⟨[0x95, 0x42], 0, 2⟩) := by
  refine ⟨by norm_num, by decide, ?_⟩
  have hcase := (parseECIValue_spec ⟨[0x95, 0x42], 0, 0⟩ (by norm_num)).2.1 (by decide)
  rw [hcase]
  decide



/-- C5 counterexample: an all-black 10x10 image takes the histogram path
(10 < 40) and its two dominant peaks coincide (gap 0 <= 2), yet `binarize`
returns an all-light matrix instead of failing; no InsufficientContrast error
exists anywhere in the source, whose binarize is total. -/
theorem binarize_lowContrast_counterexample :
    binarize (List.replicate 400 0) 10 10 = ⟨10, 10, 0⟩ ∧
    (sortedPeaksOf (histogramBuckets (luminancesOf (List.replicate 400 0) 10 10) 10 10)).2 -
      (sortedPeaksOf (histogramBuckets (luminancesOf (List.replicate 400 0) 10 10) 10 10)).1 ≤ 2 ∧
    10 < 40 := by
  refine ⟨by with_unfolding_all rfl, by with_unfolding_all decide, by norm_num⟩

/-- C5 (amended): in the histogram path (width < 40 or height < 40), whenever
the two dominant histogram peaks satisfy secondPeak - firstPeak <= 2,
`calculateBlackPoint` returns -1 and `binarize` returns an all-light matrix
(no cell set) rather than raising an error. -/
theorem binarize_insufficientContrast_amended (data : List ℕ) (width height : ℕ)
    (hdim : width < 40 ∨ height < 40)
    (hgap : (sortedPeaksOf (histogramBuckets (luminancesOf data width height) width height)).2 -
        (sortedPeaksOf (histogramBuckets (luminancesOf data width height) width height)).1 ≤ 2) :
    calculateBlackPoint (histogramBuckets (luminancesOf data width height) width height) = -1 ∧
    binarize data width height = ⟨width, height, 0⟩ := by
  have hbp : calculateBlackPoint
      (histogramBuckets (luminancesOf data width height) width height) = -1 := by
    have hc : (sortedPeaksOf (histogramBuckets (luminancesOf data width height) width height)).2 -
        (sortedPeaksOf (histogramBuckets (luminancesOf data width height) width height)).1 ≤
          LUMINANCE_BUCKETS / 16 := by
      have h16 : LUMINANCE_BUCKETS / 16 = 2 := by decide
      omega
    unfold calculateBlackPoint
    dsimp only
    rw [if_pos hc]
  refine ⟨hbp, ?_⟩
  have hdim2 : width < MINIMUM_DIMENSION ∨ height < MINIMUM_DIMENSION := by
    have h40 : MINIMUM_DIMENSION = 40 := by decide
    omega
  unfold binarize
  dsimp only
  rw [if_pos hdim2]
  unfold histogram
  dsimp only
  rw [hbp]
  rw [if_neg (by norm_num)]

/-- C5 witness: the amended theorem applied to the all-black 10x10 image. -/
theorem binarize_insufficientContrast_amended_witness :
    ((10 : ℕ) < 40 ∨ (10 : ℕ) < 40) ∧
      binarize (List.replicate 400 0) 10 10 = ⟨10, 10, 0⟩ :=
  ⟨Or.inl (by norm_num),
    (binarize_insufficientContrast_amended (List.replicate 400 0) 10 10
      (Or.inl (by norm_num)) (by with_unfolding_all decide)).2⟩


theorem matrixFlip_apply (M : ℕ → ℕ → Bool) (u v a b : ℕ) :
    matrixFlip M u v a b = if a = u ∧ b = v then !(M u v) else M a b := rfl

theorem mirrorStep_apply (m : ℕ → ℕ → Bool) (x y : ℕ) (hxy : x ≠ y) (a b : ℕ) :
    mirrorStep m (x, y) a b =
      if a = x ∧ b = y then m y x
      else if a = y ∧ b = x then m x y
      else m a b := by
  have hinner : ¬ (y = x ∧ x = y) := fun hq => hxy hq.1.symm
  have hms : mirrorStep m (x, y) a b =
      if m x y ≠ m y x then matrixFlip (matrixFlip m x y) y x a b else m a b := by
    unfold mirrorStep
    dsimp only
    split <;> rfl
  rw [hms, matrixFlip_apply, matrixFlip_apply, matrixFlip_apply, if_neg hinner]
  by_cases hne : m x y = m y x
  · rw [if_neg (fun hq => hq hne)]
    by_cases h1 : a = x ∧ b = y
    · rw [if_pos h1, h1.1, h1.2]
      exact hne
    · rw [if_neg h1]
      by_cases h2 : a = y ∧ b = x
      · rw [if_pos h2, h2.1, h2.2]
        exact hne.symm
      · rw [if_neg h2]
  · rw [if_pos hne]
    by_cases h2 : a = y ∧ b = x
    · have h1 : ¬ (a = x ∧ b = y) := fun hq => hxy (hq.1.symm.trans h2.1)
      rw [if_pos h2, if_neg h1, if_pos h2]
      cases hmx : m x y <;> cases hmy : m y x <;> simp_all
    · rw [if_neg h2]
      by_cases h1 : a = x ∧ b = y
      · rw [if_pos h1, if_pos h1]
        cases hmx : m x y <;> cases hmy : m y x <;> simp_all
      · rw [if_neg h1, if_neg h1, if_neg h2]

theorem mirror_foldl (L : List (ℕ × ℕ)) (m : ℕ → ℕ → Bool)
    (hlt : ∀ p ∈ L, p.1 < p.2) (hnd : L.Nodup) (a b : ℕ) :
    L.foldl mirrorStep m a b = if (a, b) ∈ L ∨ (b, a) ∈ L then m b a else m a b := by
  induction L generalizing m with
  | nil => simp
  | cons p T ih =>
    obtain ⟨x, y⟩ := p
    have hxylt : x < y := hlt (x, y) (by simp)
    have hxy : x ≠ y := Nat.ne_of_lt hxylt
    have hltT : ∀ q ∈ T, q.1 < q.2 := fun q hq => hlt q (List.mem_cons_of_mem _ hq)
    have hndT : T.Nodup := (List.nodup_cons.mp hnd).2
    have hpT : (x, y) ∉ T := (List.nodup_cons.mp hnd).1
    have hswapT : (y, x) ∉ T := fun hmem => by
      have := hltT _ hmem
      simp at this
      omega
    rw [List.foldl_cons, ih (mirrorStep m (x, y)) hltT hndT]
    by_cases hT : (a, b) ∈ T ∨ (b, a) ∈ T
    · rw [if_pos hT]
      rw [if_pos (by rcases hT with h | h
                     · exact Or.inl (List.mem_cons_of_mem _ h)
                     · exact Or.inr (List.mem_cons_of_mem _ h))]
      rw [mirrorStep_apply m x y hxy]
      have hb1 : ¬ (b = x ∧ a = y) := by
        rintro ⟨rfl, rfl⟩
        rcases hT with h | h
        · exact hswapT h
        · exact hpT h
      have hb2 : ¬ (b = y ∧ a = x) := by
        rintro ⟨rfl, rfl⟩
        rcases hT with h | h
        · exact hpT h
        · exact hswapT h
      rw [if_neg hb1, if_neg hb2]
    · rw [if_neg hT]
      rw [mirrorStep_apply m x y hxy]
      by_cases h1 : a = x ∧ b = y
      · obtain ⟨rfl, rfl⟩ := h1
        rw [if_pos ⟨rfl, rfl⟩, if_pos (Or.inl (List.mem_cons_self _ _))]
      · rw [if_neg h1]
        by_cases h2 : a = y ∧ b = x
        · obtain ⟨rfl, rfl⟩ := h2
          rw [if_pos ⟨rfl, rfl⟩, if_pos (Or.inr (List.mem_cons_self _ _))]
        · rw [if_neg h2]
          rw [if_neg (by
            rintro (h | h)
            · rcases List.mem_cons.mp h with heq | hmem
              · exact h1 ⟨congrArg Prod.fst heq, congrArg Prod.snd heq⟩
              · exact hT (Or.inl hmem)
            · rcases List.mem_cons.mp h with heq | hmem
              · exact h2 ⟨congrArg Prod.snd heq, congrArg Prod.fst heq⟩
              · exact hT (Or.inr hmem))]

theorem mirrorPairs_mem (size a b : ℕ) :
    (a, b) ∈ mirrorPairs size ↔ a < b ∧ b < size := by
  unfold mirrorPairs
  simp only [List.mem_flatMap, List.mem_map, List.mem_range]
  constructor
  · rintro ⟨x, hx, i, hi, heq⟩
    have ha : x = a := congrArg Prod.fst heq
    have hb : x + 1 + i = b := congrArg Prod.snd heq
    omega
  · rintro ⟨hab, hb⟩
    refine ⟨a, by omega, b - a - 1, by omega, ?_⟩
    rw [Prod.mk.injEq]
    exact ⟨rfl, by omega⟩

theorem mirrorPairs_lt (size : ℕ) : ∀ p ∈ mirrorPairs size, p.1 < p.2 := by
  intro p hp
  obtain ⟨a, b⟩ := p
  exact ((mirrorPairs_mem size a b).mp hp).1

theorem mirrorPairs_nodup (size : ℕ) : (mirrorPairs size).Nodup := by
  unfold mirrorPairs
  rw [List.nodup_flatMap]
  constructor
  · intro x hx
    refine List.Nodup.map ?_ (List.nodup_range _)
    intro i j hij
    have := congrArg Prod.snd hij
    simp at this
    omega
  · have hpw := List.pairwise_lt_range size
    refine hpw.imp ?_
    intro x z hxz
    intro q hq hq2
    simp only [List.mem_map, List.mem_range] at hq hq2
    obtain ⟨i, hi, rfl⟩ := hq
    obtain ⟨j, hj, heq⟩ := hq2
    have := congrArg Prod.fst heq
    simp at this
    omega

theorem mirrorMatrix_transpose (size : ℕ) (m : ℕ → ℕ → Bool) (x y : ℕ)
    (hx : x < size) (hy : y < size) : mirrorMatrix size m x y = m y x := by
  unfold mirrorMatrix
  rw [mirror_foldl _ _ (mirrorPairs_lt size) (mirrorPairs_nodup size)]
  rcases Nat.lt_trichotomy x y with h | h | h
  · rw [if_pos (Or.inl ((mirrorPairs_mem size x y).mpr ⟨h, hy⟩))]
  · rw [if_neg ?_]
    · rw [h]
    · rintro (hm | hm) <;> have := (mirrorPairs_mem size _ _).mp hm <;> omega
  · rw [if_pos (Or.inr ((mirrorPairs_mem size y x).mpr ⟨h, hx⟩))]

/-- C4: `Decoder.decode` first attempts a direct decode; when the direct
attempt (version read, format read, parse up to RS correction) succeeds the
result reports mirror = false; when it fails, the decoder re-applies the last
observed format mask (only when a format info had been read), mirrors, and
retries exactly once from the version read — a successful retry reports
mirror = true and a failing retry propagates its error to the caller.  The
last conjunct ties the mirror operation to its meaning: the embedded
`BitMatrixParser#mirror` transposes the matrix across the main diagonal. -/
theorem decoderDecode_retry_policy {σ V F CW C : Type} (ops : ParserOps σ V F CW C) (s : σ) :
    (∀ version formatInfo codewords corrected stateAfter observed,
      decodeAttempt ops s =
        ((stateAfter, observed), Except.ok (version, formatInfo, codewords, corrected)) →
      Decoder.decode ops s =
        (ops.decodeContent codewords version formatInfo).map
          (fun content => ⟨content, version, formatInfo, corrected, false⟩)) ∧
    (∀ stateAfter observed e,
      decodeAttempt ops s = ((stateAfter, observed), Except.error e) →
      (∀ version formatInfo codewords corrected stateAfter2 observed2,
        decodeAttempt ops
            (ops.mirror (match observed with
              | some formatInfo0 => ops.remask stateAfter (ops.maskOf formatInfo0)
              | none => stateAfter)) =
          ((stateAfter2, observed2), Except.ok (version, formatInfo, codewords, corrected)) →
        Decoder.decode ops s =
          (ops.decodeContent codewords version formatInfo).map
            (fun content => ⟨content, version, formatInfo, corrected, true⟩)) ∧
      (∀ stateAfter2 observed2 e2,
        decodeAttempt ops
            (ops.mirror (match observed with
              | some formatInfo0 => ops.remask stateAfter (ops.maskOf formatInfo0)
              | none => stateAfter)) =
          ((stateAfter2, observed2), Except.error e2) →
        Decoder.decode ops s = Except.error e2)) ∧
    (∀ size m x y, x < size → y < size → mirrorMatrix size m x y = m y x) := by
  refine ⟨?_, ?_, fun size m x y hx hy => mirrorMatrix_transpose size m x y hx hy⟩
  · intro version formatInfo codewords corrected stateAfter observed h
    unfold Decoder.decode
    rw [h]
  · intro stateAfter observed e h
    rcases observed with _ | formatInfo0
    · constructor
      · intro version formatInfo codewords corrected stateAfter2 observed2 h2
        unfold Decoder.decode
        rw [h]
        dsimp only
        rw [h2]
      · intro stateAfter2 observed2 e2 h2
        unfold Decoder.decode
        rw [h]
        dsimp only
        rw [h2]
    · constructor
      · intro version formatInfo codewords corrected stateAfter2 observed2 h2
        unfold Decoder.decode
        rw [h]
        dsimp only
        dsimp only at h2
        rw [h2]
      · intro stateAfter2 observed2 e2 h2
        unfold Decoder.decode
        rw [h]
        dsimp only
        dsimp only at h2
        rw [h2]

/-- C4 witness: concrete operations whose direct attempt fails in `parse`
after observing format info 7; the single retry succeeds and the result
reports mirror = true; plus a concrete mirrored cell. -/
theorem decoderDecode_retry_policy_witness :
    decodeAttempt witnessOps 0 = ((100, some 7), Except.error Err.error) ∧
      Decoder.decode witnessOps 0 = Except.ok ⟨13, 1, 7, 2, true⟩ ∧
      0 < 2 ∧ 1 < 2 ∧ mirrorMatrix 2 (fun a b => decide (a < b)) 0 1 = false := by
  have hdirect : decodeAttempt witnessOps 0 = ((100, some 7), Except.error Err.error) := by
    decide
  have hretry : decodeAttempt witnessOps
      (witnessOps.mirror (match (some 7 : Option ℕ) with
        | some formatInfo0 => witnessOps.remask 100 (witnessOps.maskOf formatInfo0)
        | none => 100)) =
      ((208, some 7), Except.ok (1, 7, 5, 2)) := by
    decide
  have hmain := ((decoderDecode_retry_policy witnessOps 0).2.1 100 (some 7) Err.error
    hdirect).1 1 7 5 2 208 (some 7) hretry
  have hmirror := (decoderDecode_retry_policy witnessOps 0).2.2 2
    (fun a b => decide (a < b)) 0 1 (by norm_num) (by norm_num)
  refine ⟨hdirect, ?_, by norm_num, by norm_num, ?_⟩
  · rw [hmain]
    decide
  · rw [hmirror]
    decide


end QR
